import Mathlib

/-!
Verification of the toast notification manager of `src/hooks/use-toast.ts`.

The manager keeps a bounded, ordered list of notification records, mutated by
a reducer over four action kinds (ADD_TOAST, UPDATE_TOAST, DISMISS_TOAST,
REMOVE_TOAST), with a side table of pending removal timers and a list of
subscribed observers.  We embed the record type, the reducer, the timer side
table, the id generator and the public entry points, and prove the spec's
testable properties about them.

Modelling notes:
* `title`/`description` stand for the record's display fields; they are opaque
  to the manager, which only copies them around, so two representative
  optional string fields suffice.  The `open` flag of `ToastProps` is the
  spec's `visible`.
* `Partial<ToasterToast>` becomes a record of `Option`-wrapped fields: a field
  that is `none` is absent from the partial object, mirroring the behaviour of
  the JS object spread `{ ...t, ...action.toast }`.
* The `toastTimeouts` map is modelled by its key list (insertion order); the
  timer values themselves never influence the state transitions.
* JS string truthiness (`if (toastId)`) is modelled explicitly: `undefined`
  and the empty string are falsy.
-/

namespace UseToast

/-- `TOAST_LIMIT` from use-toast.ts line 20: maximum number of toasts kept. -/
def TOAST_LIMIT : Nat := 1

/-- `Number.MAX_SAFE_INTEGER`, the modulus of the id counter. -/
def MAX_SAFE_INTEGER : Nat := 2 ^ 53 - 1

/-- Internal toast record (`ToasterToast`): an id plus display fields and the
`open` (visibility) flag from `ToastProps`. -/
structure ToasterToast where
  id : String
  title : Option String
  description : Option String
  «open» : Bool
deriving DecidableEq, Repr

/-- `Partial<ToasterToast>`: every field may be absent (`none`). -/
structure ToastPatch where
  id : Option String
  title : Option (Option String)
  description : Option (Option String)
  «open» : Option Bool
deriving DecidableEq, Repr

/-- The JS object spread `{ ...t, ...p }`: fields present in the partial
object `p` override those of `t`. -/
def applyPatch (t : ToasterToast) (p : ToastPatch) : ToasterToast :=
  { id := p.id.getD t.id
    title := p.title.getD t.title
    description := p.description.getD t.description
    «open» := p.«open».getD t.«open» }

/-- The reducer's `Action` union type. -/
inductive Action where
  | addToast (toast : ToasterToast)
  | updateToast (toast : ToastPatch)
  | dismissToast (toastId : Option String)
  | removeToast (toastId : Option String)
deriving DecidableEq, Repr

/-- The global toast `State`: the array of active toasts. -/
structure State where
  toasts : List ToasterToast
deriving DecidableEq, Repr

/-- The reducer of use-toast.ts lines 104-159.
* ADD_TOAST: `[action.toast, ...state.toasts].slice(0, TOAST_LIMIT)`.
* UPDATE_TOAST: map replacing each `t` with `{ ...t, ...action.toast }` when
  `t.id === action.toast.id`.
* DISMISS_TOAST: map setting `open: false` on each `t` with
  `t.id === toastId || toastId === undefined`.
* REMOVE_TOAST: empty list when `toastId === undefined`, otherwise filter out
  the matching id. -/
def reducer (state : State) (action : Action) : State :=
  match action with
  | .addToast t =>
      { state with toasts := (t :: state.toasts).take TOAST_LIMIT }
  | .updateToast p =>
      { state with
        toasts := state.toasts.map fun t =>
          if p.id = some t.id then applyPatch t p else t }
  | .dismissToast toastId =>
      { state with
        toasts := state.toasts.map fun t =>
          if toastId = some t.id ∨ toastId = none then
            { t with «open» := false }
          else t }
  | .removeToast toastId =>
      match toastId with
      | none => { state with toasts := [] }
      | some i => { state with toasts := state.toasts.filter fun t => t.id ≠ i }

/-- JS truthiness of a `string | undefined` value: `undefined` and `""` are
falsy. -/
def truthy : Option String → Bool
  | none => false
  | some s => s != ""

/-- `addToRemoveQueue` (lines 85-99), restricted to the timer side table it
mutates: if the id already has a pending timer, do nothing; otherwise insert
a timer keyed by the id.  Modelled on the key list of `toastTimeouts`. -/
def addToRemoveQueue (toastId : String) (timeouts : List String) : List String :=
  if toastId ∈ timeouts then timeouts else timeouts ++ [toastId]

/-- Whole-manager state: the reducer state plus the module-level mutables
`count` (id counter), `toastTimeouts` (pending-removal side table, key list)
and `listeners` (subscriber callbacks, identified by registration tokens). -/
structure MgrState where
  memoryState : State
  count : Nat
  toastTimeouts : List String
  listeners : List Nat
deriving DecidableEq, Repr

/-- The initial module state: empty list, counter 0, no timers, no
listeners. -/
def initialMgrState : MgrState :=
  { memoryState := { toasts := [] }, count := 0, toastTimeouts := [], listeners := [] }

/-- `genId` (lines 47-51): bump the counter modulo `MAX_SAFE_INTEGER` and
return its decimal string. -/
def genId (count : Nat) : Nat × String :=
  let c := (count + 1) % MAX_SAFE_INTEGER
  (c, toString c)

/-- The timer side effects interleaved with a dispatch: DISMISS_TOAST calls
`addToRemoveQueue` for the given id when truthy, else for every current
toast (lines 122-131); other actions leave the side table alone. -/
def stepTimeouts (action : Action) (s : MgrState) : List String :=
  match action with
  | .dismissToast toastId =>
      if truthy toastId then addToRemoveQueue (toastId.getD "") s.toastTimeouts
      else s.memoryState.toasts.foldl (fun acc t => addToRemoveQueue t.id acc) s.toastTimeouts
  | _ => s.toastTimeouts

/-- `dispatch` (lines 166-171) together with the reducer's timer side effect:
replace `memoryState` by the reduced state and update the side table. -/
def dispatch (action : Action) (s : MgrState) : MgrState :=
  { s with
    memoryState := reducer s.memoryState action
    toastTimeouts := stepTimeouts action s }

/-- `dispatch` including the listener broadcast: returns the new manager
state and the sequence of notifications, one per listener in registration
order, each carrying the full new state (lines 166-171). -/
def dispatchNotify (action : Action) (s : MgrState) : MgrState × List (Nat × State) :=
  let s' := dispatch action s
  (s', s.listeners.map fun l => (l, s'.memoryState))

/-- `useToast` subscription (lines 228-243): initialise from the current
`memoryState` (the immediately received list) and push the listener onto the
end of `listeners`. -/
def subscribeM (lid : Nat) (s : MgrState) : State × MgrState :=
  (s.memoryState, { s with listeners := s.listeners ++ [lid] })

/-- The creation request `Toast = Omit<ToasterToast, "id">`: the display
fields supplied to `toast(...)`. -/
structure ToastInput where
  title : Option String
  description : Option String
deriving DecidableEq, Repr

/-- The record built by `toast(...)` (lines 201-211):
`{ ...props, id, open: true, onOpenChange: ... }`. -/
def mkToast (props : ToastInput) (id : String) : ToasterToast :=
  { id := id, title := props.title, description := props.description, «open» := true }

/-- The public `toast(props)` function (lines 188-218): allocate an id via
`genId`, dispatch ADD_TOAST with the built record, and return the id the
handle is bound to. -/
def toastFn (props : ToastInput) (s : MgrState) : String × MgrState :=
  let (count', id) := genId s.count
  (id, dispatch (.addToast (mkToast props id)) { s with count := count' })

/-- The `update` closure of the handle returned by `toast` (lines 192-196):
it dispatches `UPDATE_TOAST` with `{ ...props, id }`, every field of the full
`props` present and the id overridden by the handle's bound id. -/
def handleUpdatePatch (id : String) (props : ToasterToast) : ToastPatch :=
  { id := some id
    title := some props.title
    description := some props.description
    «open» := some props.«open» }

/-- A run of consecutive `toast(...)` calls. -/
def showMany (ps : List ToastInput) (s : MgrState) : MgrState :=
  ps.foldl (fun acc p => (toastFn p acc).2) s

/-- The records built by a run of `toast(...)` calls, in call order, with the
counter threaded through `genId`. -/
def showRecords (ps : List ToastInput) (count : Nat) : List ToasterToast :=
  match ps with
  | [] => []
  | p :: rest =>
      let (count', id) := genId count
      mkToast p id :: showRecords rest count'

/-- One public operation of the manager, as taken by application code:
`toast(props)`, a handle/`UPDATE_TOAST` dispatch, `dismiss(toastId?)`, or a
`REMOVE_TOAST` dispatch (direct or from a fired timer). -/
inductive Step : MgrState → MgrState → Prop where
  | toast (props : ToastInput) (s : MgrState) : Step s (toastFn props s).2
  | update (p : ToastPatch) (s : MgrState) : Step s (dispatch (.updateToast p) s)
  | dismiss (toastId : Option String) (s : MgrState) :
      Step s (dispatch (.dismissToast toastId) s)
  | remove (toastId : Option String) (s : MgrState) :
      Step s (dispatch (.removeToast toastId) s)

/-- States reachable from the empty initial module state by public
operations. -/
inductive Reachable : MgrState → Prop where
  | init : Reachable initialMgrState
  | step {s s' : MgrState} : Reachable s → Step s s' → Reachable s'

/-! ### Helper lemmas -/

/-- A patched record keeps its id whenever the reducer's match condition
`t.id === action.toast.id` selected it. -/
lemma applyPatch_id_of_match (t : ToasterToast) (p : ToastPatch)
    (h : p.id = some t.id) : (applyPatch t p).id = t.id := by
  simp [applyPatch, h]

/-- UPDATE_TOAST never changes the sequence of ids. -/
lemma update_map_id (l : List ToasterToast) (p : ToastPatch) :
    (l.map fun t => if p.id = some t.id then applyPatch t p else t).map (·.id)
      = l.map (·.id) := by
  induction l with
  | nil => rfl
  | cons t ts ih =>
      have hid : (if p.id = some t.id then applyPatch t p else t).id = t.id := by
        by_cases h : p.id = some t.id
        · rw [if_pos h]; exact applyPatch_id_of_match t p h
        · rw [if_neg h]
      simp only [List.map_cons, hid, ih]

/-- DISMISS_TOAST never changes the sequence of ids. -/
lemma dismiss_map_id (l : List ToasterToast) (toastId : Option String) :
    (l.map fun t =>
        if toastId = some t.id ∨ toastId = none then { t with «open» := false }
        else t).map (·.id)
      = l.map (·.id) := by
  induction l with
  | nil => rfl
  | cons t ts ih =>
      by_cases h : toastId = some t.id ∨ toastId = none
      · simp [h, ih]
      · simp [h, ih]

/-- Truncating the second operand of an append before truncating the whole
append changes nothing, as long as the outer truncation is no longer. -/
lemma take_append_take {α : Type} (l₁ l₂ : List α) (n k : Nat) (h : n ≤ k) :
    (l₁ ++ l₂.take k).take n = (l₁ ++ l₂).take n := by
  induction l₁ generalizing n with
  | nil => simp [List.take_take, Nat.min_eq_left h]
  | cons a l ih =>
      cases n with
      | zero => simp
      | succ m => simp [List.take_succ_cons, ih m (Nat.le_of_succ_le h)]

/-- `showRecords` produces one record per `show` call. -/
lemma showRecords_length (ps : List ToastInput) (c : Nat) :
    (showRecords ps c).length = ps.length := by
  induction ps generalizing c with
  | nil => rfl
  | cons p rest ih => simp [showRecords, ih]

/-- Unfolding one `show` call: the new record is prepended and the list is
truncated to the limit; the counter advances by `genId`. -/
lemma toastFn_snd (props : ToastInput) (s : MgrState) :
    (toastFn props s).2 =
      { s with
        memoryState :=
          { toasts := (mkToast props (genId s.count).2 :: s.memoryState.toasts).take TOAST_LIMIT }
        count := (genId s.count).1 } := by
  simp [toastFn, dispatch, reducer, stepTimeouts, genId]

/-- The accumulated effect of a run of `show` calls on the toast list,
starting from any in-limit state. -/
lemma showMany_toasts (ps : List ToastInput) (s : MgrState)
    (h : s.memoryState.toasts.length ≤ TOAST_LIMIT) :
    (showMany ps s).memoryState.toasts =
      ((showRecords ps s.count).reverse ++ s.memoryState.toasts).take TOAST_LIMIT := by
  induction ps generalizing s with
  | nil => simp [showMany, showRecords, List.take_of_length_le h]
  | cons p rest ih =>
      have hstep : showMany (p :: rest) s = showMany rest (toastFn p s).2 := by
        simp [showMany]
      rw [hstep, ih _ (by rw [toastFn_snd]; simp)]
      rw [toastFn_snd]
      simp only [showRecords, List.reverse_cons, List.append_assoc,
        List.singleton_append]
      exact take_append_take _ _ _ _ (Nat.le_refl _)

/-- Scheduling an id that already has a pending timer does nothing. -/
lemma addToRemoveQueue_mem {a : String} {l : List String} (h : a ∈ l) :
    addToRemoveQueue a l = l := by
  unfold addToRemoveQueue
  rw [if_pos h]

/-- Scheduling a fresh id appends one timer entry. -/
lemma addToRemoveQueue_not_mem {a : String} {l : List String} (h : a ∉ l) :
    addToRemoveQueue a l = l ++ [a] := by
  unfold addToRemoveQueue
  rw [if_neg h]

/-- After scheduling, the id has a pending timer. -/
lemma mem_addToRemoveQueue (a : String) (l : List String) :
    a ∈ addToRemoveQueue a l := by
  by_cases h : a ∈ l
  · rw [addToRemoveQueue_mem h]
    exact h
  · rw [addToRemoveQueue_not_mem h]
    simp

/-- A non-empty id is truthy. -/
lemma truthy_some {i : String} (h : i ≠ "") : truthy (some i) = true := by
  simp [truthy, h]

/-! ### Concrete fixtures used by the witness theorems -/

/-- A sample record as built by `toast({title:"A"})` with id `"1"`. -/
def sampleToast : ToasterToast :=
  { id := "1", title := some "A", description := none, «open» := true }

/-- A sample state holding `sampleToast`. -/
def sampleState : State := { toasts := [sampleToast] }

/-- A sample partial update targeting the absent id `"9"`. -/
def absentPatch : ToastPatch :=
  { id := some "9", title := some (some "B"), description := none, «open» := none }

/-- A full `ToasterToast` whose own `id` field names a different record than
the handle it is passed to. -/
def spoofProps : ToasterToast :=
  { id := "999", title := some "B", description := some "d", «open» := true }

/-! ### Claim theorems -/

/-- C2: applying UPDATE_TOAST with an id not present in the current toast
list leaves the list unchanged — a silent no-op, no error. -/
theorem update_unknown_id_noop (s : State) (p : ToastPatch) (i : String)
    (hp : p.id = some i) (h : i ∉ s.toasts.map (·.id)) :
    (reducer s (.updateToast p)).toasts = s.toasts := by
  have hfix : ∀ t ∈ s.toasts,
      (if p.id = some t.id then applyPatch t p else t) = t := by
    intro t ht
    rw [if_neg]
    rw [hp]
    intro hc
    exact h (List.mem_map.mpr ⟨t, ht, by injection hc with h2; rw [h2]⟩)
  simp only [reducer]
  exact (List.map_congr_left hfix).trans (List.map_id _)

/-- C2 witness: updating `sampleState` at the absent id `"9"` changes
nothing. -/
theorem update_unknown_id_noop_witness :
    (absentPatch.id = some "9") ∧ ("9" ∉ sampleState.toasts.map (·.id)) ∧
      (reducer sampleState (.updateToast absentPatch)).toasts = sampleState.toasts :=
  ⟨rfl, by decide, update_unknown_id_noop sampleState absentPatch "9" rfl (by decide)⟩

/-- C3: UPDATE_TOAST preserves the list's length and order — pointwise, the
id at every position is unchanged, non-matching records are untouched in
place, and the matching record is replaced in place by the shallow merge
`{ ...t, ...action.toast }`. -/
theorem update_preserves_shape (s : State) (p : ToastPatch) :
    ((reducer s (.updateToast p)).toasts.length = s.toasts.length) ∧
    (∀ k : Nat, ((reducer s (.updateToast p)).toasts[k]?.map (·.id))
        = (s.toasts[k]?.map (·.id))) ∧
    (∀ (k : Nat) (t : ToasterToast), s.toasts[k]? = some t → p.id ≠ some t.id →
        (reducer s (.updateToast p)).toasts[k]? = some t) ∧
    (∀ (k : Nat) (t : ToasterToast), s.toasts[k]? = some t → p.id = some t.id →
        (reducer s (.updateToast p)).toasts[k]? = some (applyPatch t p)) := by
  refine ⟨by simp [reducer], ?_, ?_, ?_⟩
  · intro k
    simp only [reducer, List.getElem?_map]
    cases hk : s.toasts[k]? with
    | none => rfl
    | some t =>
        by_cases h : p.id = some t.id
        · simp [h, applyPatch_id_of_match t p h]
        · simp [h]
  · intro k t hk hne
    simp [reducer, hk, if_neg hne]
  · intro k t hk heq
    simp [reducer, hk, if_pos heq]

/-- C3 witness: the shape-preservation facts at `sampleState` under
`absentPatch`. -/
theorem update_preserves_shape_witness :
    ((reducer sampleState (.updateToast absentPatch)).toasts.length
        = sampleState.toasts.length) ∧
    (∀ k : Nat, ((reducer sampleState (.updateToast absentPatch)).toasts[k]?.map (·.id))
        = (sampleState.toasts[k]?.map (·.id))) ∧
    (∀ (k : Nat) (t : ToasterToast), sampleState.toasts[k]? = some t →
        absentPatch.id ≠ some t.id →
        (reducer sampleState (.updateToast absentPatch)).toasts[k]? = some t) ∧
    (∀ (k : Nat) (t : ToasterToast), sampleState.toasts[k]? = some t →
        absentPatch.id = some t.id →
        (reducer sampleState (.updateToast absentPatch)).toasts[k]?
          = some (applyPatch t absentPatch)) :=
  update_preserves_shape sampleState absentPatch

/-- C5: REMOVE_TOAST with a toastId deletes exactly the matching record,
leaving every other record in place (the result is a sublist of the
original containing precisely the records with a different id); REMOVE_TOAST
with `toastId === undefined` empties the list. -/
theorem remove_exact (s : State) (i : String) :
    ((reducer s (.removeToast none)).toasts = []) ∧
    (List.Sublist (reducer s (.removeToast (some i))).toasts s.toasts) ∧
    (∀ t ∈ s.toasts, t.id ≠ i → t ∈ (reducer s (.removeToast (some i))).toasts) ∧
    (∀ t ∈ (reducer s (.removeToast (some i))).toasts, t ∈ s.toasts ∧ t.id ≠ i) := by
  refine ⟨rfl, ?_, ?_, ?_⟩
  · simp only [reducer]
    exact List.filter_sublist _
  · intro t ht hne
    simp only [reducer, List.mem_filter]
    exact ⟨ht, by simpa using hne⟩
  · intro t ht
    simp only [reducer, List.mem_filter] at ht
    exact ⟨ht.1, by simpa using ht.2⟩

/-- C5 witness: removal facts at `sampleState` for id `"1"`. -/
theorem remove_exact_witness :
    ((reducer sampleState (.removeToast none)).toasts = []) ∧
    (List.Sublist (reducer sampleState (.removeToast (some "1"))).toasts sampleState.toasts) ∧
    (∀ t ∈ sampleState.toasts, t.id ≠ "1" →
        t ∈ (reducer sampleState (.removeToast (some "1"))).toasts) ∧
    (∀ t ∈ (reducer sampleState (.removeToast (some "1"))).toasts,
        t ∈ sampleState.toasts ∧ t.id ≠ "1") :=
  remove_exact sampleState "1"

/-- C10: the handle's `update` closure dispatches `{ ...props, id }`, so the
action always carries the handle's own bound id — even when `props.id` names
a different record — and applying it can only rewrite the record whose id is
the handle's, with that record's id preserved. -/
theorem handle_update_own_id (s : State) (hid : String) (props : ToasterToast) :
    ((handleUpdatePatch hid props).id = some hid) ∧
    ((reducer s (.updateToast (handleUpdatePatch hid props))).toasts
      = s.toasts.map fun t =>
          if t.id = hid then
            { id := hid, title := props.title, description := props.description,
              «open» := props.«open» }
          else t) := by
  refine ⟨rfl, ?_⟩
  simp only [reducer]
  apply List.map_congr_left
  intro t _
  by_cases h : t.id = hid
  · rw [if_pos (show (handleUpdatePatch hid props).id = some t.id by
      simp [handleUpdatePatch, h]), if_pos h]
    simp [applyPatch, handleUpdatePatch]
  · rw [if_neg (show ¬(handleUpdatePatch hid props).id = some t.id by
      simp [handleUpdatePatch]; exact fun hc => h hc.symm), if_neg h]

/-- C10 witness: a handle bound to id `"1"` fed props whose `id` is `"999"`
still dispatches id `"1"` and only touches record `"1"`. -/
theorem handle_update_own_id_witness :
    ((handleUpdatePatch "1" spoofProps).id = some "1") ∧
    ((reducer sampleState (.updateToast (handleUpdatePatch "1" spoofProps))).toasts
      = sampleState.toasts.map fun t =>
          if t.id = "1" then
            { id := "1", title := spoofProps.title,
              description := spoofProps.description, «open» := spoofProps.«open» }
          else t) :=
  handle_update_own_id sampleState "1" spoofProps

/-- A sample whole-manager state holding `sampleState` with no pending
timers. -/
def sampleMgr : MgrState :=
  { memoryState := sampleState, count := 1, toastTimeouts := [], listeners := [0] }

/-- C4: DISMISS_TOAST with a toastId synchronously sets `open` to `false` on
the matching record while keeping every record in place (same length, every
position still occupied, non-matching records untouched), it schedules the
id's deferred removal in the timer side table, and DISMISS_TOAST with no
toastId sets `open` to `false` on every record, likewise keeping them all. -/
theorem dismiss_marks_invisible (s : State) (i : String) (m : MgrState) :
    ((reducer s (.dismissToast (some i))).toasts.length = s.toasts.length) ∧
    (∀ (k : Nat) (t : ToasterToast), s.toasts[k]? = some t →
        (t.id = i → (reducer s (.dismissToast (some i))).toasts[k]?
            = some { t with «open» := false }) ∧
        (t.id ≠ i → (reducer s (.dismissToast (some i))).toasts[k]? = some t)) ∧
    ((reducer s (.dismissToast none)).toasts.length = s.toasts.length) ∧
    (∀ (k : Nat) (t : ToasterToast), s.toasts[k]? = some t →
        (reducer s (.dismissToast none)).toasts[k]?
          = some { t with «open» := false }) ∧
    (i ≠ "" → i ∈ (dispatch (.dismissToast (some i)) m).toastTimeouts) := by
  refine ⟨by simp [reducer], ?_, by simp [reducer], ?_, ?_⟩
  · intro k t hk
    constructor
    · intro ht
      simp [reducer, hk, ht]
    · intro ht
      simp [reducer, hk]
      intro hc
      exact absurd hc.symm ht
  · intro k t hk
    simp [reducer, hk]
  · intro hne
    simp only [dispatch, stepTimeouts, truthy_some hne, if_pos, Option.getD_some]
    exact mem_addToRemoveQueue i m.toastTimeouts

/-- C4 witness: dismissing id `"1"` in `sampleMgr`. -/
theorem dismiss_marks_invisible_witness :
    ((reducer sampleState (.dismissToast (some "1"))).toasts.length
        = sampleState.toasts.length) ∧
    (∀ (k : Nat) (t : ToasterToast), sampleState.toasts[k]? = some t →
        (t.id = "1" → (reducer sampleState (.dismissToast (some "1"))).toasts[k]?
            = some { t with «open» := false }) ∧
        (t.id ≠ "1" →
            (reducer sampleState (.dismissToast (some "1"))).toasts[k]? = some t)) ∧
    ((reducer sampleState (.dismissToast none)).toasts.length
        = sampleState.toasts.length) ∧
    (∀ (k : Nat) (t : ToasterToast), sampleState.toasts[k]? = some t →
        (reducer sampleState (.dismissToast none)).toasts[k]?
          = some { t with «open» := false }) ∧
    ("1" ≠ "" → "1" ∈ (dispatch (.dismissToast (some "1")) sampleMgr).toastTimeouts) :=
  dismiss_marks_invisible sampleState "1" sampleMgr

/-- C6: dismissing the same id twice in a row schedules exactly one removal
timer — the second DISMISS_TOAST leaves the side table untouched, and the
table holds exactly one entry for the id. -/
theorem dismiss_twice_single_timer (m : MgrState) (i : String)
    (hne : i ≠ "") (h : m.toastTimeouts.count i ≤ 1) :
    ((dispatch (.dismissToast (some i))
        (dispatch (.dismissToast (some i)) m)).toastTimeouts
      = (dispatch (.dismissToast (some i)) m).toastTimeouts) ∧
    ((dispatch (.dismissToast (some i)) m).toastTimeouts.count i = 1) := by
  have h1 : (dispatch (.dismissToast (some i)) m).toastTimeouts
      = addToRemoveQueue i m.toastTimeouts := by
    simp [dispatch, stepTimeouts, truthy_some hne]
  constructor
  · have h2 : (dispatch (.dismissToast (some i))
        (dispatch (.dismissToast (some i)) m)).toastTimeouts
      = addToRemoveQueue i (addToRemoveQueue i m.toastTimeouts) := by
      simp [dispatch, stepTimeouts, truthy_some hne, h1]
    rw [h2, h1, addToRemoveQueue_mem (mem_addToRemoveQueue i m.toastTimeouts)]
  · rw [h1]
    by_cases hm : i ∈ m.toastTimeouts
    · rw [addToRemoveQueue_mem hm]
      have := List.one_le_count_iff.mpr hm
      omega
    · rw [addToRemoveQueue_not_mem hm, List.count_append,
        List.count_eq_zero_of_not_mem hm, List.count_singleton_self]

/-- C6 witness: two dismissals of id `"1"` in `sampleMgr` leave exactly one
timer entry. -/
theorem dismiss_twice_single_timer_witness :
    ("1" : String) ≠ "" ∧ sampleMgr.toastTimeouts.count "1" ≤ 1 ∧
    (((dispatch (.dismissToast (some "1"))
        (dispatch (.dismissToast (some "1")) sampleMgr)).toastTimeouts
      = (dispatch (.dismissToast (some "1")) sampleMgr).toastTimeouts) ∧
    ((dispatch (.dismissToast (some "1")) sampleMgr).toastTimeouts.count "1" = 1)) :=
  ⟨by decide, by decide,
    dismiss_twice_single_timer sampleMgr "1" (by decide) (by decide)⟩

/-- A state holding one already-dismissed record. -/
def dismissedState : State :=
  { toasts := [{ id := "1", title := some "A", description := none, «open» := false }] }

/-- A partial update that explicitly sets `open: true`. -/
def reopenPatch : ToastPatch :=
  { id := some "1", title := none, description := none, «open» := some true }

/-- A partial update that leaves the `open` field absent. -/
def titlePatch : ToastPatch :=
  { id := some "1", title := some (some "B"), description := none, «open» := none }

/-- C7 counterexample: UPDATE_TOAST's shallow merge accepts an `open` field,
so an update carrying `open: true` flips a dismissed record's visibility back
from `false` to `true`. -/
theorem update_reopens_dismissed :
    (dismissedState.toasts.map fun t => (t.id, t.«open»)) = [("1", false)] ∧
    ((reducer dismissedState (.updateToast reopenPatch)).toasts.map
        fun t => (t.id, t.«open»)) = [("1", true)] := by
  decide

/-- C7 (amended): a record's `open` flag, once `false`, never returns to
`true` under dismiss, remove, add of a fresh id, or an update whose partial
fields omit `open`; only an update explicitly supplying `open` can flip it
back. -/
theorem open_never_reopens (s : State) (a : Action) (i : String)
    (hup : ∀ p, a = Action.updateToast p → p.«open» = none)
    (hadd : ∀ t, a = Action.addToast t → t.id ≠ i)
    (hclosed : ∀ t ∈ s.toasts, t.id = i → t.«open» = false) :
    ∀ t ∈ (reducer s a).toasts, t.id = i → t.«open» = false := by
  intro t ht hid
  cases a with
  | addToast t0 =>
      simp only [reducer] at ht
      rcases List.mem_cons.mp (List.take_subset _ _ ht) with h | h
      · subst h
        exact absurd hid (hadd t rfl)
      · exact hclosed t h hid
  | updateToast p =>
      simp only [reducer] at ht
      rcases List.mem_map.mp ht with ⟨t0, ht0, heq⟩
      by_cases hm : p.id = some t0.id
      · rw [if_pos hm] at heq
        have hopeno : (applyPatch t0 p).«open» = t0.«open» := by
          simp [applyPatch, hup p rfl]
        rw [← heq] at hid ⊢
        rw [hopeno]
        exact hclosed t0 ht0 (applyPatch_id_of_match t0 p hm ▸ hid)
      · rw [if_neg hm] at heq
        rw [← heq] at hid ⊢
        exact hclosed t0 ht0 hid
  | dismissToast tid =>
      simp only [reducer] at ht
      rcases List.mem_map.mp ht with ⟨t0, ht0, heq⟩
      by_cases hm : tid = some t0.id ∨ tid = none
      · rw [if_pos hm] at heq
        rw [← heq]
      · rw [if_neg hm] at heq
        rw [← heq] at hid ⊢
        exact hclosed t0 ht0 hid
  | removeToast tid =>
      cases tid with
      | none => simp [reducer] at ht
      | some j =>
          simp only [reducer, List.mem_filter] at ht
          exact hclosed t ht.1 hid

/-- C7 (amended) witness: an `open`-less update of a dismissed record keeps
it invisible. -/
theorem open_never_reopens_witness :
    (∀ t ∈ dismissedState.toasts, t.id = "1" → t.«open» = false) ∧
    (∀ t ∈ (reducer dismissedState (.updateToast titlePatch)).toasts,
        t.id = "1" → t.«open» = false) :=
  ⟨by decide,
    open_never_reopens dismissedState (.updateToast titlePatch) "1"
      (fun p hp => by cases hp; rfl)
      (fun t h => Action.noConfusion h)
      (by decide)⟩

/-- Display fields of the spec's scenario `show({title:"A"})`. -/
def inputA : ToastInput := { title := some "A", description := none }

/-- Display fields of the spec's scenario `show({title:"B"})`. -/
def inputB : ToastInput := { title := some "B", description := none }

/-- C1: over any run of `toast` calls exceeding the limit, the list length
never exceeds `TOAST_LIMIT` at any point, the final list is exactly the
`TOAST_LIMIT` most recently shown records in newest-first order, the front
of the list is the newest record, and each insertion evicts from the tail
(the survivors followed by the dropped tail reconstitute the newest-first
list). -/
theorem toastLimit_retention (ps : List ToastInput) (h : TOAST_LIMIT < ps.length) :
    (∀ n : Nat,
        (showMany (ps.take n) initialMgrState).memoryState.toasts.length ≤ TOAST_LIMIT) ∧
    ((showMany ps initialMgrState).memoryState.toasts
        = ((showRecords ps 0).drop (ps.length - TOAST_LIMIT)).reverse) ∧
    ((showMany ps initialMgrState).memoryState.toasts.head?
        = (showRecords ps 0).getLast?) ∧
    (∀ (t : ToasterToast) (m : MgrState),
        (dispatch (.addToast t) m).memoryState.toasts
            ++ (t :: m.memoryState.toasts).drop TOAST_LIMIT
          = t :: m.memoryState.toasts) := by
  have hinit : initialMgrState.memoryState.toasts.length ≤ TOAST_LIMIT := by
    simp [initialMgrState, TOAST_LIMIT]
  have hmain : ∀ qs : List ToastInput,
      (showMany qs initialMgrState).memoryState.toasts
        = ((showRecords qs 0).reverse).take TOAST_LIMIT := by
    intro qs
    rw [showMany_toasts qs initialMgrState hinit]
    simp [initialMgrState]
  refine ⟨?_, ?_, ?_, ?_⟩
  · intro n
    rw [hmain (ps.take n), List.length_take]
    exact Nat.min_le_left _ _
  · rw [hmain ps, List.take_reverse, showRecords_length]
  · rw [hmain ps, List.head?_take, if_neg (by decide : ¬TOAST_LIMIT = 0)]
    exact List.head?_reverse _
  · intro t m
    have hadd : (dispatch (.addToast t) m).memoryState.toasts
        = (t :: m.memoryState.toasts).take TOAST_LIMIT := by
      simp [dispatch, reducer, stepTimeouts]
    rw [hadd, List.take_append_drop]

/-- C1 witness: the spec scenario — `show({title:"A"})` then
`show({title:"B"})` with limit 1. -/
theorem toastLimit_retention_witness :
    TOAST_LIMIT < ([inputA, inputB] : List ToastInput).length ∧
    ((∀ n : Nat,
        (showMany (([inputA, inputB] : List ToastInput).take n)
            initialMgrState).memoryState.toasts.length ≤ TOAST_LIMIT) ∧
    ((showMany [inputA, inputB] initialMgrState).memoryState.toasts
        = ((showRecords [inputA, inputB] 0).drop
            (([inputA, inputB] : List ToastInput).length - TOAST_LIMIT)).reverse) ∧
    ((showMany [inputA, inputB] initialMgrState).memoryState.toasts.head?
        = (showRecords [inputA, inputB] 0).getLast?) ∧
    (∀ (t : ToasterToast) (m : MgrState),
        (dispatch (.addToast t) m).memoryState.toasts
            ++ (t :: m.memoryState.toasts).drop TOAST_LIMIT
          = t :: m.memoryState.toasts)) :=
  ⟨by decide, toastLimit_retention [inputA, inputB] (by decide)⟩

/-- C8: in every manager state reachable from the empty initial state via
the public operations, the ids in the active toast list are pairwise
distinct. -/
theorem reachable_ids_nodup (s : MgrState) (h : Reachable s) :
    (s.memoryState.toasts.map (·.id)).Nodup := by
  induction h with
  | init => simp [initialMgrState]
  | step hr hstep ih =>
      cases hstep with
      | toast props s1 =>
          rw [toastFn_snd]
          simp [TOAST_LIMIT]
      | update p s1 =>
          simp only [dispatch, reducer]
          rw [update_map_id]
          exact ih
      | dismiss tid s1 =>
          simp only [dispatch, reducer]
          rw [dismiss_map_id]
          exact ih
      | remove tid s1 =>
          cases tid with
          | none => simp [dispatch, reducer]
          | some j =>
              simp only [dispatch, reducer]
              exact List.Nodup.sublist
                (List.Sublist.map _ (List.filter_sublist _)) ih

/-- C8 witness: the state after showing "A" then "B" has pairwise distinct
ids. -/
theorem reachable_ids_nodup_witness :
    ((toastFn inputB (toastFn inputA initialMgrState).2).2.memoryState.toasts.map
        (·.id)).Nodup :=
  reachable_ids_nodup _
    (Reachable.step
      (Reachable.step Reachable.init (Step.toast inputA initialMgrState))
      (Step.toast inputB (toastFn inputA initialMgrState).2))

/-- Projecting the recipients out of a broadcast returns the listener list
itself. -/
lemma notify_fst (ls : List Nat) (st : State) :
    (ls.map fun l => (l, st)).map Prod.fst = ls := by
  induction ls with
  | nil => rfl
  | cons a l ih => simp [ih]

/-- C9: while records exist, a newly registered subscriber immediately
receives the current list, it is appended at the end of the registration
order, and every dispatch notifies all subscribers in registration order,
each with the full new state. -/
theorem subscribe_and_broadcast_order (m : MgrState) (lid : Nat) (a : Action)
    (hrecords : m.memoryState.toasts ≠ []) :
    ((subscribeM lid m).1 = m.memoryState) ∧
    ((subscribeM lid m).2.listeners = m.listeners ++ [lid]) ∧
    ((dispatchNotify a m).2.map Prod.fst = m.listeners) ∧
    (∀ x ∈ (dispatchNotify a m).2, x.2 = (dispatchNotify a m).1.memoryState) ∧
    ((dispatchNotify a (subscribeM lid m).2).2.map Prod.fst
        = m.listeners ++ [lid]) := by
  refine ⟨rfl, rfl, ?_, ?_, ?_⟩
  · simp only [dispatchNotify]
    exact notify_fst _ _
  · intro x hx
    simp only [dispatchNotify, List.mem_map] at hx
    rcases hx with ⟨l, _, rfl⟩
    rfl
  · simp only [dispatchNotify, subscribeM]
    exact notify_fst _ _

/-- C9 witness: subscribing listener `7` to `sampleMgr` (which holds a
record) and then dispatching a dismissal. -/
theorem subscribe_and_broadcast_order_witness :
    sampleMgr.memoryState.toasts ≠ [] ∧
    (((subscribeM 7 sampleMgr).1 = sampleMgr.memoryState) ∧
    ((subscribeM 7 sampleMgr).2.listeners = sampleMgr.listeners ++ [7]) ∧
    ((dispatchNotify (.dismissToast (some "1")) sampleMgr).2.map Prod.fst
        = sampleMgr.listeners) ∧
    (∀ x ∈ (dispatchNotify (.dismissToast (some "1")) sampleMgr).2,
        x.2 = (dispatchNotify (.dismissToast (some "1")) sampleMgr).1.memoryState) ∧
    ((dispatchNotify (.dismissToast (some "1")) (subscribeM 7 sampleMgr).2).2.map
        Prod.fst = sampleMgr.listeners ++ [7])) :=
  ⟨by decide,
    subscribe_and_broadcast_order sampleMgr 7 (.dismissToast (some "1")) (by decide)⟩

end UseToast
